import Mathlib

/-!
# Lomography filter pipeline — verification development

Shallow embedding of `src/lomography.cpp` (OpenCV lomography demo).
Images are modelled as total pixel functions with explicit dimensions;
8-bit channel values are `ℕ` (meaningful range 0–255); the floating-point
arithmetic of the source (`float`/`double`, OpenCV `CV_32F`) is modelled
over `ℝ`; `cvRound` is modelled by `round : ℝ → ℤ`.

The mutable globals `img`, `result`, `display`, `s`, `radius`
(lomography.cpp lines 26–30) become the fields of `LomoState`, and the two
trackbar callbacks become state transformers.
-/

namespace Lomo

/-- A 3-channel 8-bit image: `pix x y c` is the value of channel `c`
at column `x`, row `y` (values outside the rectangle are irrelevant). -/
structure Image where
  cols : ℕ
  rows : ℕ
  pix : ℕ → ℕ → Fin 3 → ℕ

/-- The program's mutable globals (lomography.cpp lines 26–30):
the loaded photo `img`, the color-filter output `result` (empty until the
color callback runs, hence an `Option`), the vignette output `display`
(empty until the halo callback runs), and the two trackbar-bound
parameters `s` and `radius`. -/
structure LomoState where
  img : Image
  result : Option Image
  display : Option Image
  s : ℕ
  radius : ℕ

/-- State right after `imread` succeeds: buffers empty, `s = 10`,
`radius = 100` (the initial values at lines 29–30). -/
def initState (img : Image) : LomoState :=
  { img := img, result := none, display := none, s := 10, radius := 100 }

/-! ## Lookup table (trackbar_color, lines 53–58) -/

/-- The logistic sigmoid `1 / (1 + e^{-t})`, as written at line 57:
`1 / (1 + pow(exp_e, -t))`. -/
noncomputable def logistic (t : ℝ) : ℝ := 1 / (1 + Real.exp (-t))

/-- Real value computed at line 57 for table index `i` and steepness `s`:
`256 * logistic ((x - 0.5) / (s/100))` with `x = i/256`. -/
noncomputable def lutReal (s i : ℕ) : ℝ :=
  256 * logistic (((i : ℝ) / 256 - 1 / 2) / ((s : ℝ) / 100))

/-- `cvRound` of the line-57 value: the `int` produced before the `uchar`
store. -/
noncomputable def lutInt (s i : ℕ) : ℤ := round (lutReal s i)

/-- The narrowing `int → uchar` store performed by
`lut.at<uchar>(i) = cvRound(...)` at line 57: reduction modulo 256
(C++ unsigned narrowing). There is no explicit clamp in the source. -/
def storeU8 (v : ℤ) : ℕ := (v % 256).toNat

/-- Explicit saturation of an `int` to `[0,255]`.  This definition follows
the SPEC's words ("implementations must clamp explicitly"), for comparison
with the source's `storeU8`; it is not what the code does. -/
def clampU8 (v : ℤ) : ℕ := (min 255 (max 0 v)).toNat

/-- Entry `i` of the LUT built by `trackbar_color` for steepness `s`:
line-57 value rounded and stored through the `uchar` cast. -/
noncomputable def lutTable (s i : ℕ) : ℕ := storeU8 (lutInt s i)

/-- The LUT as the 1×256 row matrix `cv::Mat lut(1, 256, CV_8UC1)`
of line 53, listed left to right. -/
noncomputable def lutList (s : ℕ) : List ℕ := (List.range 256).map (lutTable s)

/-! ## Color filter (trackbar_color, lines 43–68) -/

/-- `cv::split` (line 63): channel `c` of `img` as a single-channel plane. -/
def splitCh (img : Image) (c : Fin 3) : ℕ → ℕ → ℕ := fun x y => img.pix x y c

/-- `cv::LUT` (line 64): remap every pixel of a plane through a table. -/
def lutApply (tbl : ℕ → ℕ) (ch : ℕ → ℕ → ℕ) : ℕ → ℕ → ℕ := fun x y => tbl (ch x y)

/-- `cv::merge` (line 65): reassemble three planes into an image of the
given dimensions. -/
def mergeCh (w h : ℕ) (chs : Fin 3 → (ℕ → ℕ → ℕ)) : Image :=
  { cols := w, rows := h, pix := fun x y c => chs c x y }

/-- The color-filter callback `trackbar_color` (lines 43–68):
floor `s` to 8, build the LUT, split `img`, remap channel 2 through the
LUT, merge into `result`.  `img`, `display` and `radius` are untouched. -/
noncomputable def trackbar_color (st : LomoState) : LomoState :=
  let s1 := max st.s 8
  let bgr := splitCh st.img
  let bgr2 := Function.update bgr 2 (lutApply (lutTable s1) (bgr 2))
  { st with s := s1,
            result := some (mergeCh st.img.cols st.img.rows bgr2) }

/-! ## Vignette mask (trackbar_halo, lines 94–109) -/

/-- OpenCV `BORDER_REFLECT_101` index interpolation (the default border
for `cv::blur`): reflect an out-of-range coordinate `p` into `[0, len)`
without repeating the edge pixel (`... 2 1 | 0 1 2 ... len-1 | len-2 ...`),
written in closed form as a triangle wave of period `2*(len-1)`. -/
def reflect101 (len : ℕ) (p : ℤ) : ℕ :=
  if len ≤ 1 then 0
  else
    let q := p % (2 * ((len : ℤ) - 1))
    if q < len then q.toNat else (2 * ((len : ℤ) - 1) - q).toNat

/-- The mask before blurring (lines 94 and 108): every pixel of a
`CV_32FC3` grid starts at `0.5` (`cv::Scalar(0.5,0.5,0.5)`), then
`cv::circle(..., thickness = -1)` fills the disc of radius `r` centred at
`(w/2, h/2)` with `1.0`.  All three channels are equal, so the mask is a
single-channel real grid; disc membership is squared-distance ≤ `r²`. -/
def mask0 (w h r : ℕ) (x y : ℕ) : ℝ :=
  if ((x : ℤ) - (w / 2 : ℕ))^2 + ((y : ℤ) - (h / 2 : ℕ))^2 ≤ ((r : ℕ) : ℤ)^2
  then 1 else 0.5

/-- `cv::blur(halo, halo, Size(k, k))` (line 109): normalized box filter
with a `k × k` kernel, default anchor `(k/2, k/2)`, `BORDER_REFLECT_101`. -/
noncomputable def blurBox (w h k : ℕ) (f : ℕ → ℕ → ℝ) : ℕ → ℕ → ℝ := fun x y =>
  (∑ i ∈ Finset.range k, ∑ j ∈ Finset.range k,
      f (reflect101 w ((x : ℤ) + (i : ℤ) - (k / 2 : ℕ)))
        (reflect101 h ((y : ℤ) + (j : ℤ) - (k / 2 : ℕ))))
    / ((k : ℝ) * (k : ℝ))

/-- The halo mask of lines 94–109: baseline 0.5, bright disc of radius
`r`, blurred with a box kernel of size `r`. -/
noncomputable def vignetteMask (w h r : ℕ) : ℕ → ℕ → ℝ :=
  blurBox w h r (mask0 w h r)

/-! ## Vignette application (trackbar_halo, lines 113–122) -/

/-- `saturate_cast<uchar>` as performed by `convertTo(display, CV_8UC3)`
at line 122: round to an integer, clamp to `[0,255]`. -/
noncomputable def sat8 (v : ℝ) : ℕ := (min 255 (max 0 (round v))).toNat

/-- Lines 113–122: promote the result buffer to `CV_32FC3` (exact),
multiply channel-wise by the mask (`cv::multiply`), convert back to
8 bits. -/
noncomputable def vignetteApply (src : Image) (mask : ℕ → ℕ → ℝ) : Image :=
  { cols := src.cols, rows := src.rows,
    pix := fun x y c => sat8 ((src.pix x y c : ℝ) * mask x y) }

/-- Line 102–103: `radius = max(1, int(min(cols, rows) * (radius/200.0)))`.
The truncating `static_cast<int>` of a non-negative real is `ℕ` floor
division here. -/
def haloRadius (m r : ℕ) : ℕ := max 1 (m * r / 200)

/-- The halo callback `trackbar_halo` (lines 83–124): seed `result` from
`img` if it is empty (lines 88–89), overwrite the `radius` global with the
derived pixel radius (lines 102–103), build the mask on `img`'s
dimensions, multiply the result buffer by the mask and store into
`display` (lines 113–122).  `img` and `s` are untouched. -/
noncomputable def trackbar_halo (st : LomoState) : LomoState :=
  let res := st.result.getD st.img
  let r1 := haloRadius (min st.img.cols st.img.rows) st.radius
  let disp := vignetteApply res (vignetteMask st.img.cols st.img.rows r1)
  { st with result := some res, radius := r1, display := some disp }

/-! ## Terminal key gate (main, lines 169–189)

`waitKey` is called exactly once; `'q'` (113) returns 0 immediately,
`'s'` (115) attempts `imwrite` of `display`, and any other key falls
through to `destroyWindow` and `return 0`.  The outcome is the pair
(was the display buffer saved?, process exit code). -/

/-- Outcome of lines 169–189 for one key press `k` with display buffer
`d`.  The `none` branch of the save key is modelled from the spec:
"Underlying toolkit error … propagate as a fatal error … the process
terminates" (§7) — `imwrite` on an empty buffer raises a `cv::Exception`,
caught at lines 182–186, exit code 1. -/
def keyGate (d : Option Image) (k : ℕ) : Bool × ℕ :=
  if k = 113 then (false, 0)
  else if k = 115 then
    match d with
    | some _ => (true, 0)
    | none => (false, 1)
  else (false, 0)

/-- The program against a queue of key presses: the single `waitKey` at
line 169 consumes the first key only; the rest are never read.  An empty
queue (window closed, `waitKey` returns −1) falls through to `return 0`. -/
def keyGateRun (d : Option Image) : List ℕ → Bool × ℕ
  | [] => (false, 0)
  | k :: _ => keyGate d k

/-- Modelled from the spec: "any other key is ignored (program blocks
until a recognized key or the window is closed)" — a key-press LOOP that
keeps waiting on an unrecognized key.  This is the spec's claimed
behaviour, stated for comparison with `keyGateRun`; it is not what the
code does. -/
def keyGateLoop (d : Option Image) : List ℕ → Bool × ℕ
  | [] => (false, 0)
  | k :: rest =>
    if k = 113 then (false, 0)
    else if k = 115 then
      match d with
      | some _ => (true, 0)
      | none => (false, 1)
    else keyGateLoop d rest

/-! ## Concrete test fixtures -/

/-- A 4×4 mid-gray image. -/
def testImg : Image := { cols := 4, rows := 4, pix := fun _ _ _ => 128 }

/-- A 400×400 image loaded into the initial state: large enough that the
derived pixel radius exceeds the trackbar percentage. -/
def st400 : LomoState := initState { cols := 400, rows := 400, pix := fun _ _ _ => 128 }

/-- A small state with a color-filter result already present. -/
def stWithResult : LomoState :=
  { img := testImg, result := some testImg, display := none, s := 10, radius := 50 }

end Lomo

namespace Lomo

/-! ## Helper lemmas -/

/-- `⌊m * (r/200)⌋` over `ℝ`, taken back to `ℕ`, is `ℕ` floor division. -/
lemma toNat_floor_mul_div (m r : ℕ) :
    (⌊(m : ℝ) * ((r : ℝ) / 200)⌋).toNat = m * r / 200 := by
  have h : (m : ℝ) * ((r : ℝ) / 200) = ((m * r : ℕ) : ℝ) / ((200 : ℕ) : ℝ) := by
    push_cast; ring
  rw [h, Int.floor_toNat, Nat.floor_div_nat, Nat.floor_natCast]

/-- The color-filter output depends only on the image and on `max s 8`. -/
lemma trackbar_color_result_congr (st₁ st₂ : LomoState)
    (h1 : st₁.img = st₂.img) (h2 : max st₁.s 8 = max st₂.s 8) :
    (trackbar_color st₁).result = (trackbar_color st₂).result := by
  simp only [trackbar_color, h1, h2]

/-- Iterating the halo callback never touches `img` or `s`. -/
lemma trackbar_halo_iterate_preserves (st : LomoState) (n : ℕ) :
    (trackbar_halo^[n] st).img = st.img ∧ (trackbar_halo^[n] st).s = st.s := by
  induction n with
  | zero => exact ⟨rfl, rfl⟩
  | succ n ih =>
    rw [Function.iterate_succ_apply']
    exact ⟨ih.1, ih.2⟩

/-- The color callback never touches `display`, starting from the initial
state. -/
lemma trackbar_color_iterate_display (img : Image) (n : ℕ) :
    (trackbar_color^[n] (initState img)).display = none := by
  induction n with
  | zero => rfl
  | succ n ih =>
    rw [Function.iterate_succ_apply']
    simpa [trackbar_color] using ih

end Lomo

namespace Lomo

/-! ## Claim theorems (structural) -/

/-- C5: On each halo invocation, the pixel radius of the bright disc is
computed as `min(W, H) * (p / 200.0)` from the current radius value `p`,
truncated to an integer, and clamped to a minimum of 1 pixel. -/
theorem halo_radius_formula (st : LomoState) :
    (trackbar_halo st).radius
      = max 1 ((⌊(min st.img.cols st.img.rows : ℝ) * ((st.radius : ℝ) / 200)⌋).toNat) := by
  show haloRadius (min st.img.cols st.img.rows) st.radius = _
  rw [haloRadius, ← Nat.cast_min, toNat_floor_mul_div]

/-- C2: The halo callback always composes on top of the most recent
color-filter result: if the result buffer is unset it is first seeded from
the original image; the vignette multiplication is applied to the result
buffer (never to the original image when a color-filter result exists) and
the product is written to the display buffer. -/
theorem trackbar_halo_composes (st : LomoState) :
    (trackbar_halo st).img = st.img
    ∧ (st.result = none → (trackbar_halo st).result = some st.img
        ∧ (trackbar_halo st).display
          = some (vignetteApply st.img (vignetteMask st.img.cols st.img.rows
              (haloRadius (min st.img.cols st.img.rows) st.radius))))
    ∧ ∀ r, st.result = some r → (trackbar_halo st).result = some r
        ∧ (trackbar_halo st).display
          = some (vignetteApply r (vignetteMask st.img.cols st.img.rows
              (haloRadius (min st.img.cols st.img.rows) st.radius))) := by
  refine ⟨rfl, fun h => ?_, fun r h => ?_⟩ <;>
    simp [trackbar_halo, h]

/-- C2 witness: with a color-filter result present, the halo output is the
vignette of that result, not of the original image. -/
theorem trackbar_halo_composes_witness :
    (trackbar_halo stWithResult).result = some testImg
    ∧ (trackbar_halo stWithResult).display
      = some (vignetteApply testImg
          (vignetteMask stWithResult.img.cols stWithResult.img.rows
            (haloRadius (min stWithResult.img.cols stWithResult.img.rows)
              stWithResult.radius))) :=
  (trackbar_halo_composes stWithResult).2.2 testImg rfl

/-- C3 counterexample: on a 400×400 image starting from the default
percentage 100, the in-place overwrite makes the effective pixel radius
GROW across repeated invocations (100 → 200 → 400), refuting "for every
image … the effective radius is non-increasing". -/
theorem halo_radius_grows :
    (trackbar_halo st400).radius = 200
    ∧ (trackbar_halo (trackbar_halo st400)).radius = 400
    ∧ ¬(400 ≤ 200) := by
  exact ⟨rfl, rfl, by decide⟩

/-- C3 (amended): the radius field is overwritten in place with the
derived pixel radius on each invocation; whenever the image's smaller
dimension is at most 200 pixels (and the field is at least 1, as it is
after any prior invocation), the effective radius is non-increasing
across repeated invocations.  On larger images it can grow. -/
theorem halo_radius_nonincreasing (st : LomoState)
    (hm : min st.img.cols st.img.rows ≤ 200) (hr : 1 ≤ st.radius) :
    (trackbar_halo st).radius = haloRadius (min st.img.cols st.img.rows) st.radius
    ∧ (trackbar_halo st).radius ≤ st.radius := by
  refine ⟨rfl, ?_⟩
  show haloRadius (min st.img.cols st.img.rows) st.radius ≤ st.radius
  have h1 : min st.img.cols st.img.rows * st.radius / 200 ≤ st.radius := by
    calc min st.img.cols st.img.rows * st.radius / 200
        ≤ 200 * st.radius / 200 :=
          Nat.div_le_div_right (Nat.mul_le_mul_right _ hm)
      _ = st.radius := by omega
  exact max_le hr h1

/-- C3 witness: concrete non-increase on a 4×4 image with radius 50. -/
theorem halo_radius_nonincreasing_witness :
    (trackbar_halo stWithResult).radius
      = haloRadius (min stWithResult.img.cols stWithResult.img.rows) stWithResult.radius
    ∧ (trackbar_halo stWithResult).radius ≤ stWithResult.radius :=
  halo_radius_nonincreasing stWithResult (by decide) (by decide)

/-- C4: the color-filter callback produces an image with the same
dimensions whose channel 2 at each pixel is `table[original value]`,
whose other channels are byte-for-byte identical to the source, and it
does not mutate the source image. -/
theorem trackbar_color_remap (st : LomoState) (x y : ℕ) (c : Fin 3) (hc : c ≠ 2) :
    (trackbar_color st).result.isSome = true
    ∧ (∀ res, (trackbar_color st).result = some res →
        res.cols = st.img.cols ∧ res.rows = st.img.rows
        ∧ res.pix x y 2 = lutTable (max st.s 8) (st.img.pix x y 2)
        ∧ res.pix x y c = st.img.pix x y c)
    ∧ (trackbar_color st).img = st.img := by
  refine ⟨rfl, fun res hres => ?_, rfl⟩
  have hres2 : res = mergeCh st.img.cols st.img.rows
      (Function.update (splitCh st.img) 2
        (lutApply (lutTable (max st.s 8)) (splitCh st.img 2))) := by
    simpa [trackbar_color] using hres.symm
  subst hres2
  refine ⟨rfl, rfl, ?_, ?_⟩
  · simp [mergeCh, lutApply, splitCh]
  · simp [mergeCh, Function.update_noteq hc, splitCh]

/-- C4 witness: concrete instance on the initial state of the test image,
off-channel 0. -/
theorem trackbar_color_remap_witness :
    (trackbar_color (initState testImg)).result.isSome = true
    ∧ (∀ res, (trackbar_color (initState testImg)).result = some res →
        res.cols = (initState testImg).img.cols
        ∧ res.rows = (initState testImg).img.rows
        ∧ res.pix 0 0 2
            = lutTable (max (initState testImg).s 8) ((initState testImg).img.pix 0 0 2)
        ∧ res.pix 0 0 0 = (initState testImg).img.pix 0 0 0)
    ∧ (trackbar_color (initState testImg)).img = (initState testImg).img :=
  trackbar_color_remap (initState testImg) 0 0 0 (by decide)

/-- C8: the color filter always recomputes from the immutable original
image: applying the color callback twice in a row gives the same result
buffer as applying it once, and this remains true across any number of
interleaved halo invocations. -/
theorem trackbar_color_idempotent (st : LomoState) (n : ℕ) :
    (trackbar_color (trackbar_color st)).result = (trackbar_color st).result
    ∧ (trackbar_color (trackbar_halo^[n] (trackbar_color st))).result
        = (trackbar_color st).result := by
  constructor
  · apply trackbar_color_result_congr
    · rfl
    · show max (max st.s 8) 8 = max st.s 8
      rw [max_assoc, max_self]
  · apply trackbar_color_result_congr
    · exact (trackbar_halo_iterate_preserves (trackbar_color st) n).1
    · rw [(trackbar_halo_iterate_preserves (trackbar_color st) n).2]
      show max (max st.s 8) 8 = max st.s 8
      rw [max_assoc, max_self]

/-- C9 counterexample: with a display buffer present and the key sequence
['a', 's'], the program exits immediately with code 0 saving nothing
(only one `waitKey` call), whereas the claimed keep-blocking loop would go
on to save.  The two outcomes differ. -/
theorem key_gate_unrecognized_exits :
    keyGateRun (some testImg) [97, 115] = (false, 0)
    ∧ keyGateLoop (some testImg) [97, 115] = (true, 0)
    ∧ ((false, 0) : Bool × ℕ) ≠ ((true, 0) : Bool × ℕ) :=
  ⟨rfl, rfl, by decide⟩

/-- C9 (amended): at the terminal gate, 'q' exits code 0 without saving,
's' saves the display buffer and exits code 0, and any OTHER key also
exits code 0 without saving: exactly one key press is consumed and the
program does not keep blocking on an unrecognized key. -/
theorem key_gate_single_wait (d : Option Image) (k : ℕ) (ks : List ℕ)
    (hq : k ≠ 113) (hs : k ≠ 115) :
    keyGate d 113 = (false, 0)
    ∧ (∀ i, keyGate (some i) 115 = (true, 0))
    ∧ keyGate d k = (false, 0)
    ∧ keyGateRun d (k :: ks) = keyGate d k := by
  refine ⟨rfl, fun i => rfl, ?_, rfl⟩
  simp [keyGate, hq, hs]

/-- C9 witness: key 'a' (97) with a non-empty display. -/
theorem key_gate_single_wait_witness :
    keyGate (some testImg) 113 = (false, 0)
    ∧ (∀ i, keyGate (some i) 115 = (true, 0))
    ∧ keyGate (some testImg) 97 = (false, 0)
    ∧ keyGateRun (some testImg) (97 :: [115]) = keyGate (some testImg) 97 :=
  key_gate_single_wait (some testImg) 97 [115] (by decide) (by decide)

/-- C10: if 's' is pressed before the halo callback has ever run — even
after any number of color-filter invocations — the display buffer is
still empty, the attempted write fails, and the process exits with code 1
saving nothing. -/
theorem save_before_halo_exit_one (img : Image) (n : ℕ) :
    (trackbar_color^[n] (initState img)).display = none
    ∧ keyGate ((trackbar_color^[n] (initState img)).display) 115 = (false, 1) := by
  refine ⟨trackbar_color_iterate_display img n, ?_⟩
  rw [trackbar_color_iterate_display img n]
  rfl

end Lomo

namespace Lomo

/-! ## Bounds on the lookup-table formula -/

lemma logistic_pos (t : ℝ) : 0 < logistic t := by
  unfold logistic
  positivity

lemma logistic_mono {t u : ℝ} (h : t ≤ u) : logistic t ≤ logistic u := by
  unfold logistic
  have h1 : (0 : ℝ) < 1 + Real.exp (-u) := by positivity
  have h2 : 1 + Real.exp (-u) ≤ 1 + Real.exp (-t) := by
    have := Real.exp_le_exp.mpr (neg_le_neg h)
    linarith
  exact one_div_le_one_div_of_le h1 h2

/-- For `0 ≤ x < 1`, `e^x ≤ (1-x)⁻¹` (from `1 - x ≤ e^{-x}`). -/
lemma exp_le_inv_one_sub {x : ℝ} (h1 : x < 1) : Real.exp x ≤ (1 - x)⁻¹ := by
  have h2 : (0 : ℝ) < 1 - x := by linarith
  have h3 : 1 - x ≤ Real.exp (-x) := by
    have := Real.add_one_le_exp (-x)
    linarith
  have h4 : (Real.exp (-x))⁻¹ ≤ (1 - x)⁻¹ := inv_anti₀ h2 h3
  rwa [Real.exp_neg, inv_inv] at h4

/-- Numeric bound: `e^{6.201171875} < 511`, via `e < 2.7182818286` and
`e^{103/512} ≤ (409/512)⁻¹`. -/
lemma exp_bound_511 : Real.exp (6 + 103 / 512 : ℝ) < 511 := by
  have h6 : Real.exp 6 < 2.7182818286 ^ (6 : ℕ) := by
    have h1 : Real.exp (6 : ℝ) = Real.exp 1 ^ (6 : ℕ) := by
      rw [← Real.exp_nat_mul]
      norm_num
    rw [h1]
    exact pow_lt_pow_left₀ Real.exp_one_lt_d9 (Real.exp_pos 1).le (by norm_num)
  have hs : Real.exp (103 / 512 : ℝ) ≤ (1 - 103 / 512 : ℝ)⁻¹ :=
    exp_le_inv_one_sub (by norm_num)
  have hsplit : Real.exp (6 + 103 / 512 : ℝ)
      = Real.exp 6 * Real.exp (103 / 512 : ℝ) := Real.exp_add 6 (103 / 512)
  rw [hsplit]
  calc Real.exp 6 * Real.exp (103 / 512 : ℝ)
      ≤ Real.exp 6 * (1 - 103 / 512 : ℝ)⁻¹ :=
        mul_le_mul_of_nonneg_left hs (Real.exp_pos 6).le
    _ < 2.7182818286 ^ (6 : ℕ) * (1 - 103 / 512 : ℝ)⁻¹ :=
        mul_lt_mul_of_pos_right h6 (by norm_num)
    _ < 511 := by norm_num

/-- The sigmoid stays below `511/512` on all arguments the table uses. -/
lemma logistic_lt_of_le {t : ℝ} (h : t ≤ 6 + 103 / 512) : logistic t < 511 / 512 := by
  have h1 : logistic t ≤ logistic (6 + 103 / 512 : ℝ) := logistic_mono h
  have h2 : logistic (6 + 103 / 512 : ℝ) < 511 / 512 := by
    have hT := exp_bound_511
    have he : (1 : ℝ) / 511 < Real.exp (-(6 + 103 / 512 : ℝ)) := by
      rw [Real.exp_neg, ← one_div]
      exact one_div_lt_one_div_of_lt (Real.exp_pos _) hT
    unfold logistic
    rw [div_lt_div_iff₀ (by positivity) (by norm_num : (0 : ℝ) < 512)]
    nlinarith [Real.exp_pos (-(6 + 103 / 512 : ℝ))]
  linarith

/-- The sigmoid argument at steepness `s ≥ 8`, index `i ≤ 255`, is at most
`(127/256)/(8/100) = 6.201171875`. -/
lemma lut_arg_le (s i : ℕ) (h8 : 8 ≤ s) (hi : i < 256) :
    ((i : ℝ) / 256 - 1 / 2) / ((s : ℝ) / 100) ≤ 6 + 103 / 512 := by
  have hs8 : (8 : ℝ) ≤ (s : ℝ) := by exact_mod_cast h8
  have hs0 : (0 : ℝ) < (s : ℝ) / 100 := by linarith
  have hi255 : (i : ℝ) ≤ 255 := by exact_mod_cast Nat.lt_succ_iff.mp hi
  have ha : (i : ℝ) / 256 - 1 / 2 ≤ 127 / 256 := by linarith
  calc ((i : ℝ) / 256 - 1 / 2) / ((s : ℝ) / 100)
      ≤ (127 / 256 : ℝ) / ((s : ℝ) / 100) := (div_le_div_iff_of_pos_right hs0).mpr ha
    _ ≤ (127 / 256 : ℝ) / ((8 : ℝ) / 100) :=
        div_le_div_of_nonneg_left (by norm_num) (by norm_num) (by linarith)
    _ = 6 + 103 / 512 := by norm_num

/-- The rounded table value is always in `[0, 255]` for effective
steepness `s ≥ 8`: the `int` at line 57 never leaves the `uchar` range. -/
lemma lutInt_mem (s i : ℕ) (h8 : 8 ≤ s) (hi : i < 256) :
    0 ≤ lutInt s i ∧ lutInt s i ≤ 255 := by
  have hpos : 0 < lutReal s i := by
    unfold lutReal
    have := logistic_pos (((i : ℝ) / 256 - 1 / 2) / ((s : ℝ) / 100))
    linarith
  have hlt : lutReal s i < 255.5 := by
    unfold lutReal
    have := logistic_lt_of_le (lut_arg_le s i h8 hi)
    norm_num at this ⊢
    linarith
  constructor
  · unfold lutInt
    rw [round_eq]
    exact Int.floor_nonneg.mpr (by linarith)
  · unfold lutInt
    rw [round_eq]
    have : ⌊lutReal s i + 1 / 2⌋ < 256 := by
      rw [Int.floor_lt]
      push_cast
      linarith
    omega

end Lomo

namespace Lomo

/-- C1: for every effective steepness `s` in `[8,20]` and every index
`i` in `[0,255]`, the table entry built by the color-filter callback is
`round (256 * logistic ((x - 0.5) / (s/100)))` with `x = i/256`:
the `uchar` store loses nothing because the rounded value is already in
`[0,255]`. -/
theorem trackbar_color_lut_formula (s i : ℕ) (h8 : 8 ≤ s) (_h20 : s ≤ 20)
    (hi : i < 256) :
    (lutTable s i : ℤ)
      = round (256 * logistic (((i : ℝ) / 256 - 1 / 2) / ((s : ℝ) / 100))) := by
  have h := lutInt_mem s i h8 hi
  have h1 : lutTable s i = (lutInt s i).toNat := by
    unfold lutTable storeU8
    congr 1
    omega
  rw [h1, Int.toNat_of_nonneg h.1]
  rfl

/-- C1 witness: steepness 10, index 128. -/
theorem trackbar_color_lut_formula_witness :
    (lutTable 10 128 : ℤ)
      = round (256 * logistic ((((128 : ℕ) : ℝ) / 256 - 1 / 2) / (((10 : ℕ) : ℝ) / 100))) :=
  trackbar_color_lut_formula 10 128 (by decide) (by decide) (by decide)

/-- C7 counterexample: the narrowing performed by the source at line 57
is a wrapping `uchar` cast, not an explicit clamp — on the out-of-range
value 256 the two disagree (`storeU8` wraps to 0, an explicit clamp gives
255), so the claim that out-of-range formula values are "clamped
explicitly rather than narrowed by a truncating cast" is false of this
code. -/
theorem lut_store_is_cast_not_clamp :
    storeU8 256 = 0 ∧ clampU8 256 = 255 ∧ (0 : ℕ) ≠ 255 := by decide

/-- C7 (amended): for all `s` in `[8,20]` the table has exactly 256
entries and every entry lies in `[0,255]`; the source uses a plain
`uchar` cast with no explicit clamp, which is harmless here because for
effective steepness the rounded formula value already lies in `[0,255]`,
so the cast never wraps. -/
theorem lut_table_length_range (s : ℕ) (h8 : 8 ≤ s) (_h20 : s ≤ 20) :
    (lutList s).length = 256
    ∧ ∀ i, i < 256 → lutTable s i ≤ 255 ∧ (lutTable s i : ℤ) = lutInt s i := by
  constructor
  · simp [lutList]
  · intro i hi
    have h := lutInt_mem s i h8 hi
    unfold lutTable storeU8
    constructor
    · omega
    · omega

/-- C7 witness: steepness 8 (the steepest effective curve). -/
theorem lut_table_length_range_witness :
    (lutList 8).length = 256
    ∧ ∀ i, i < 256 → lutTable 8 i ≤ 255 ∧ (lutTable 8 i : ℤ) = lutInt 8 i :=
  lut_table_length_range 8 (by decide) (by decide)

/-! ## Vignette-filter bounds -/

lemma mask0_le_one (w h r x y : ℕ) : mask0 w h r x y ≤ 1 := by
  unfold mask0
  split <;> norm_num

/-- A normalized box blur of a function bounded by 1 is bounded by 1. -/
lemma blurBox_le_one (w h k : ℕ) (f : ℕ → ℕ → ℝ) (hk : 1 ≤ k)
    (hf : ∀ x y, f x y ≤ 1) (x y : ℕ) : blurBox w h k f x y ≤ 1 := by
  unfold blurBox
  have hk0 : (0 : ℝ) < (k : ℝ) := by exact_mod_cast hk
  rw [div_le_one (by positivity)]
  calc (∑ i ∈ Finset.range k, ∑ j ∈ Finset.range k,
          f (reflect101 w ((x : ℤ) + (i : ℤ) - (k / 2 : ℕ)))
            (reflect101 h ((y : ℤ) + (j : ℤ) - (k / 2 : ℕ))))
      ≤ ∑ i ∈ Finset.range k, ∑ j ∈ Finset.range k, (1 : ℝ) := by
        refine Finset.sum_le_sum fun i _ => Finset.sum_le_sum fun j _ => hf _ _
    _ = (k : ℝ) * (k : ℝ) := by
        simp [Finset.sum_const, Finset.card_range]

lemma round_mono_le {a b : ℝ} (h : a ≤ b) : round a ≤ round b := by
  rw [round_eq, round_eq]
  exact Int.floor_le_floor (by linarith)

/-- The saturating 8-bit conversion of anything at most `p` is at most
`p`. -/
lemma sat8_le_of_le (p : ℕ) {v : ℝ} (hv : v ≤ (p : ℝ)) : sat8 v ≤ p := by
  unfold sat8
  have h1 : round v ≤ (p : ℤ) := by
    have h2 := round_mono_le hv
    rwa [round_natCast] at h2
  omega

/-- The saturating 8-bit conversion is the identity on byte values. -/
lemma sat8_natCast (p : ℕ) (hp : p ≤ 255) : sat8 ((p : ℕ) : ℝ) = p := by
  unfold sat8
  rw [round_natCast]
  omega

/-- C6: every value of the built vignette mask is at most 1 (0.5
baseline, 1.0 disc, blur-averaged), so the vignette filter's output never
exceeds the input at the same pixel and channel, and equals it exactly
where the mask is exactly 1. -/
theorem vignette_output_le (src : Image) (w h r x y : ℕ) (c : Fin 3)
    (hr : 1 ≤ r) (hpix : src.pix x y c ≤ 255) :
    vignetteMask w h r x y ≤ 1
    ∧ (vignetteApply src (vignetteMask w h r)).pix x y c ≤ src.pix x y c
    ∧ (vignetteMask w h r x y = 1 →
        (vignetteApply src (vignetteMask w h r)).pix x y c = src.pix x y c) := by
  have hm : vignetteMask w h r x y ≤ 1 :=
    blurBox_le_one w h r _ hr (mask0_le_one w h r) x y
  refine ⟨hm, ?_, ?_⟩
  · show sat8 ((src.pix x y c : ℝ) * vignetteMask w h r x y) ≤ src.pix x y c
    exact sat8_le_of_le _ (mul_le_of_le_one_right (by positivity) hm)
  · intro h1
    show sat8 ((src.pix x y c : ℝ) * vignetteMask w h r x y) = src.pix x y c
    rw [h1, mul_one]
    exact sat8_natCast _ hpix

/-- C6 witness: the 4×4 test image, radius 1, top-left pixel, channel 0. -/
theorem vignette_output_le_witness :
    vignetteMask 4 4 1 0 0 ≤ 1
    ∧ (vignetteApply testImg (vignetteMask 4 4 1)).pix 0 0 0 ≤ testImg.pix 0 0 0
    ∧ (vignetteMask 4 4 1 0 0 = 1 →
        (vignetteApply testImg (vignetteMask 4 4 1)).pix 0 0 0 = testImg.pix 0 0 0) :=
  vignette_output_le testImg 4 4 1 0 0 0 (by decide) (by decide)

end Lomo
